import Mathlib

/-!
Verification development for the legal-jm retrieval-augmented
indexing-and-answering engine.

The repository ships the database schema (the SQL migration embedded in
the sources), DTO and interface declarations, and detailed design
documents for the RAG services; the service implementations themselves
(RAG service, chunking service, indexing service, providers) are not in
the repository, so those operations are modelled from the specification,
faithful to its words, and marked as such in their doc comments.  The
table layouts, column sets, unique indexes and foreign-key actions are
taken directly from the migration.
-/

set_option maxRecDepth 8000

namespace LegalJM

/-- An embedding vector: a list of rational coordinates.  Scores are kept
in the rationals so that every comparison is decidable. -/
abbrev Vec := List ℚ

/-- The fixed embedding dimension; the migration declares the column as
vector(1536). -/
def embeddingDim : Nat := 1536

/-! ## Provider abstraction

From the declared AIProvider interface: a provider exposes embed and
chat.  Network effects are made explicit by threading a trace that
counts network calls; the real provider consumes an oracle (the remote
service) and bumps the counter, the dry-run provider touches neither. -/

/-- A chat message, from the declared ChatMessage interface. -/
structure ChatMessage where
  role : String
  content : String
deriving Repr, DecidableEq

/-- A chat response, from the declared ChatResponse interface. -/
structure ChatResponse where
  content : String
  promptTokens : Nat
  completionTokens : Nat
deriving Repr, DecidableEq

/-- Explicit effect state: how many network calls have been made. -/
structure Trace where
  networkCalls : Nat
deriving Repr, DecidableEq

/-- A provider: embed and chat, in explicit state-passing form, plus the
configured dry-run flag used when recording QA logs. -/
structure Provider where
  embed : String → Trace → Vec × Trace
  chat : List ChatMessage → Trace → ChatResponse × Trace
  dryRun : Bool

/-- Modelled from the spec: a simple deterministic content hash of a
text, used by the dry-run provider to derive a vector from the text. -/
def textHash (t : String) : Nat :=
  t.data.foldl (fun h c => (h * 31 + c.toNat) % 1000003) 7

/-- Modelled from the spec: the dry-run embedding, a fixed-dimension
vector derived from a hash of the text (DryRunProvider.embed is missing
from the sources; only its declaration and required behaviour exist). -/
def dryRunVec (t : String) : Vec :=
  (List.range embeddingDim).map (fun i => (((textHash t + i) % 97 : ℕ) : ℚ) / 97)

/-- Modelled from the spec: the dry-run chat response, a fixed-format
placeholder answer referencing the supplied context. -/
def dryRunChat (msgs : List ChatMessage) : ChatResponse :=
  { content := "[dry-run] placeholder answer based on: " ++ String.join (msgs.map (fun m => m.content))
  , promptTokens := 0
  , completionTokens := 0 }

/-- Modelled from the spec: the dry-run provider is a pure function of
its inputs, makes no network call, and reports dryRun = true. -/
def DryRunProvider : Provider :=
  { embed := fun t tr => (dryRunVec t, tr)
  , chat := fun msgs tr => (dryRunChat msgs, tr)
  , dryRun := true }

/-- The real provider delegates to an external service (modelled as an
oracle that may depend on the call number, capturing nondeterminism of
the network) and each call is a network call. -/
def RealProvider (oracleEmbed : String → Nat → Vec)
    (oracleChat : List ChatMessage → Nat → ChatResponse) : Provider :=
  { embed := fun t tr => (oracleEmbed t tr.networkCalls, ⟨tr.networkCalls + 1⟩)
  , chat := fun msgs tr => (oracleChat msgs tr.networkCalls, ⟨tr.networkCalls + 1⟩)
  , dryRun := false }

/-! ## SimilarityRetriever -/

/-- A search result: a chunk id with its similarity score. -/
structure SearchResult where
  chunkId : Nat
  score : ℚ
deriving Repr, DecidableEq

/-- Modelled from the spec: SimilarityRetriever.search scores every
stored embedding against the query vector, filters out scores below
minSim, sorts descending by score and truncates to topk.  The similarity
metric itself is a parameter: the spec notes (design notes §9) that the
source does not pin down the exact metric, so every theorem below holds
for cosine similarity in particular. -/
def SimilarityRetriever.search (sim : Vec → Vec → ℚ) (stored : List (Nat × Vec))
    (q : Vec) (topk : Nat) (minSim : ℚ) : List SearchResult :=
  let scored := stored.map (fun e => SearchResult.mk e.1 (sim q e.2))
  let filtered := scored.filter (fun r => decide (minSim ≤ r.score))
  let ranked := filtered.mergeSort (fun a b => decide (b.score ≤ a.score))
  ranked.take topk

theorem search_length_le (sim : Vec → Vec → ℚ) (stored : List (Nat × Vec))
    (q : Vec) (topk : Nat) (minSim : ℚ) :
    (SimilarityRetriever.search sim stored q topk minSim).length ≤ topk := by
  unfold SimilarityRetriever.search
  simp [List.length_take]

theorem search_score_ge (sim : Vec → Vec → ℚ) (stored : List (Nat × Vec))
    (q : Vec) (topk : Nat) (minSim : ℚ) :
    ∀ r ∈ SimilarityRetriever.search sim stored q topk minSim, minSim ≤ r.score := by
  intro r hr
  unfold SimilarityRetriever.search at hr
  have h1 := (List.take_sublist topk _).subset hr
  rw [List.mem_mergeSort] at h1
  exact of_decide_eq_true (List.mem_filter.mp h1).2

theorem search_sorted (sim : Vec → Vec → ℚ) (stored : List (Nat × Vec))
    (q : Vec) (topk : Nat) (minSim : ℚ) :
    List.Pairwise (fun a b => b.score ≤ a.score)
      (SimilarityRetriever.search sim stored q topk minSim) := by
  unfold SimilarityRetriever.search
  have hs := @List.sorted_mergeSort SearchResult
    (fun a b : SearchResult => decide (b.score ≤ a.score))
    (fun a b c hab hbc => by
      have h1 := of_decide_eq_true hab
      have h2 := of_decide_eq_true hbc
      exact decide_eq_true (le_trans h2 h1))
    (fun a b => by
      rcases le_total b.score a.score with h | h
      · simp [decide_eq_true h]
      · simp [decide_eq_true h])
    (((List.map (fun e => SearchResult.mk e.1 (sim q e.2)) stored)).filter
      (fun r => decide (minSim ≤ r.score)))
  have hp : List.Pairwise (fun a b : SearchResult => b.score ≤ a.score)
      (((List.map (fun e => SearchResult.mk e.1 (sim q e.2)) stored)).filter
        (fun r => decide (minSim ≤ r.score)) |>.mergeSort
        (fun a b => decide (b.score ≤ a.score))) :=
    hs.imp (fun h => of_decide_eq_true h)
  exact List.Pairwise.sublist (List.take_sublist topk _) hp

/-- C1: for every query vector, top_k and min_similarity (and any
similarity metric, cosine in particular), SimilarityRetriever.search
returns at most top_k results, every returned result has score at least
min_similarity, and the list is sorted in descending order of score. -/
theorem C1_search_topk_threshold_sorted (sim : Vec → Vec → ℚ)
    (stored : List (Nat × Vec)) (q : Vec) (topk : Nat) (minSim : ℚ) :
    (SimilarityRetriever.search sim stored q topk minSim).length ≤ topk ∧
    (∀ r ∈ SimilarityRetriever.search sim stored q topk minSim, minSim ≤ r.score) ∧
    List.Pairwise (fun a b => b.score ≤ a.score)
      (SimilarityRetriever.search sim stored q topk minSim) :=
  ⟨search_length_le sim stored q topk minSim,
   search_score_ge sim stored q topk minSim,
   search_sorted sim stored q topk minSim⟩

/-- C1 witness: the guarantees at a concrete corpus of two stored
embeddings with a constant metric, top_k = 5 and threshold 7/10. -/
theorem C1_search_topk_threshold_sorted_witness :
    (SimilarityRetriever.search (fun q v => (1 : ℚ)) [(1, ([] : Vec)), (2, ([] : Vec))]
      ([] : Vec) 5 (7 / 10)).length ≤ 5 ∧
    (∀ r ∈ SimilarityRetriever.search (fun q v => (1 : ℚ)) [(1, ([] : Vec)), (2, ([] : Vec))]
      ([] : Vec) 5 (7 / 10), (7 / 10 : ℚ) ≤ r.score) ∧
    List.Pairwise (fun a b => b.score ≤ a.score)
      (SimilarityRetriever.search (fun q v => (1 : ℚ)) [(1, ([] : Vec)), (2, ([] : Vec))]
        ([] : Vec) 5 (7 / 10)) :=
  C1_search_topk_threshold_sorted (fun q v => (1 : ℚ)) [(1, ([] : Vec)), (2, ([] : Vec))]
    ([] : Vec) 5 (7 / 10)

/-- C2: DryRunProvider.embed is a deterministic pure function of the
input text: its value does not depend on any effect state, two calls on
identical text return bit-identical vectors, and the vector has the
fixed embedding dimension. -/
theorem C2_dryRunProvider_embed_deterministic :
    ∀ (t : String) (tr tr' : Trace),
      (DryRunProvider.embed t tr).1 = (DryRunProvider.embed t tr').1 ∧
      (DryRunProvider.embed t tr).1 = dryRunVec t ∧
      ((DryRunProvider.embed t tr).1).length = embeddingDim := by
  intro t tr tr'
  refine ⟨rfl, rfl, ?_⟩
  show (dryRunVec t).length = embeddingDim
  unfold dryRunVec
  rw [List.length_map, List.length_range]

/-! ## DocumentChunker

The chunking service is described in the design documents (chunk by
section, sliding window with overlap, split preferentially at
paragraph/sentence boundaries, fall back to a hard cut) but not
implemented in the repository, so it is modelled from the spec. -/

/-- A document section as handed to the chunker: ordered, with an
optional heading, following the Section table of the migration. -/
structure SectionRec where
  sectionId : Nat
  heading : Option String
  text : List Char
deriving Repr, DecidableEq

/-- A chunk, following the Chunk table of the migration (id omitted:
chunks are identified by (documentId, index), unique by the
Chunk_documentId_index_key index). -/
structure ChunkRec where
  documentId : Nat
  sectionId : Option Nat
  index : Nat
  text : List Char
deriving Repr, DecidableEq

/-- A paragraph or sentence boundary character. -/
def isBoundary (c : Char) : Bool := c = '\n' || c = '.'

/-- Position just after the last boundary character of a window, if the
window has one. -/
def lastBoundaryEnd (l : List Char) : Option Nat :=
  l.enum.foldl (fun acc p => if isBoundary p.2 then some (p.1 + 1) else acc) none

/-- Modelled from the spec: where to cut the next chunk.  If the text
fits in maxSize it is taken whole; otherwise the cut is at the last
boundary within the look-back window lb of the window edge, and only a
hard cut at exactly maxSize when no such boundary exists. -/
def findCut (maxSize lb : Nat) (text : List Char) : Nat :=
  if text.length ≤ maxSize then text.length
  else
    match lastBoundaryEnd (text.take maxSize) with
    | some p => if maxSize - lb ≤ p then p else maxSize
    | none => maxSize

/-- Modelled from the spec: sliding-window split of one oversized
section, keeping overlap trailing units of context between consecutive
chunks.  Fuel-driven recursion; the step is at least one unit so fuel
text.length + 1 always suffices. -/
def splitGo (maxSize overlap lb : Nat) : Nat → List Char → List (List Char)
  | 0, _ => []
  | _, [] => []
  | fuel + 1, text =>
    if text.length ≤ maxSize then [text]
    else
      let cut := findCut maxSize lb text
      text.take cut :: splitGo maxSize overlap lb fuel (text.drop (max (cut - overlap) 1))

/-- Modelled from the spec: a section within maxSize yields one chunk,
an oversized section is window-split, and an empty section produces no
chunks. -/
def splitSection (maxSize overlap lb : Nat) (text : List Char) : List (List Char) :=
  if text.isEmpty then [] else splitGo maxSize overlap lb (text.length + 1) text

/-- Modelled from the spec: DocumentChunker.chunk walks the sections in
order, splits each, keeps the originating section id, and assigns index
values sequentially across the whole document starting at 0. -/
def chunkDocument (docId : Nat) (sections : List SectionRec)
    (maxSize overlap lb : Nat) : List ChunkRec :=
  let pieces := sections.flatMap
    (fun s => (splitSection maxSize overlap lb s.text).map (fun t => (s.sectionId, t)))
  pieces.enum.map (fun p => ChunkRec.mk docId (some p.2.1) p.1 p.2.2)

theorem chunkDocument_map_index (docId : Nat) (sections : List SectionRec)
    (maxSize overlap lb : Nat) :
    (chunkDocument docId sections maxSize overlap lb).map (fun c => c.index)
      = List.range (chunkDocument docId sections maxSize overlap lb).length := by
  unfold chunkDocument
  rw [List.map_map, List.length_map]
  have : ((fun c : ChunkRec => c.index) ∘
      fun p : Nat × (Nat × List Char) => ChunkRec.mk docId (some p.2.1) p.1 p.2.2)
      = Prod.fst := rfl
  rw [this, List.enum_map_fst, List.enum_length]

/-- C3: for every document, the chunk index values produced by chunking
(and hence by re-chunking, which replaces the whole chunk set of the
document with a fresh chunkDocument result) are exactly 0, 1, ...,
n-1 in section order: contiguous from 0, without gaps, and unique. -/
theorem C3_chunk_indices_contiguous_unique (docId : Nat)
    (sections : List SectionRec) (maxSize overlap lb : Nat) :
    (chunkDocument docId sections maxSize overlap lb).map (fun c => c.index)
      = List.range (chunkDocument docId sections maxSize overlap lb).length ∧
    ((chunkDocument docId sections maxSize overlap lb).map (fun c => c.index)).Nodup := by
  refine ⟨chunkDocument_map_index docId sections maxSize overlap lb, ?_⟩
  rw [chunkDocument_map_index docId sections maxSize overlap lb]
  exact List.nodup_range _

/-! ### The chunking scenario on boundary-free text

On text with no paragraph/sentence boundary the look-back search finds
nothing and the chunker hard-cuts at exactly maxSize, which is what the
spec scenario (sections of 500/4000/100 identical characters) exercises. -/

theorem foldl_no_boundary (l : List (Nat × Char)) (acc : Option Nat)
    (h : ∀ p ∈ l, isBoundary p.2 = false) :
    l.foldl (fun acc p => if isBoundary p.2 then some (p.1 + 1) else acc) acc = acc := by
  induction l generalizing acc with
  | nil => rfl
  | cons p l ih =>
    have hp := h p (List.mem_cons_self p l)
    rw [List.foldl_cons, hp]
    simp only [Bool.false_eq_true, if_false]
    exact ih acc (fun q hq => h q (List.mem_cons_of_mem p hq))

theorem lastBoundaryEnd_replicate (k : Nat) (c : Char) (hc : isBoundary c = false) :
    lastBoundaryEnd (List.replicate k c) = none := by
  unfold lastBoundaryEnd
  apply foldl_no_boundary
  intro p hp
  obtain ⟨i, x⟩ := p
  have hmem := List.mem_enumFrom hp
  have hx : x = c := by
    have h2 := hmem.2.2
    simpa [List.getElem_replicate] using h2
  simpa [hx] using hc

theorem findCut_replicate (maxSize lb n : Nat) (c : Char)
    (hc : isBoundary c = false) (h : maxSize < n) :
    findCut maxSize lb (List.replicate n c) = maxSize := by
  unfold findCut
  rw [if_neg (by simp only [List.length_replicate]; omega)]
  rw [List.take_replicate, lastBoundaryEnd_replicate _ _ hc]

theorem splitGo_fits (maxSize overlap lb fuel n : Nat) (c : Char)
    (h0 : n ≠ 0) (h : n ≤ maxSize) :
    splitGo maxSize overlap lb (fuel + 1) (List.replicate n c) = [List.replicate n c] := by
  obtain ⟨m, rfl⟩ := Nat.exists_eq_succ_of_ne_zero h0
  rw [List.replicate_succ]
  show splitGo maxSize overlap lb (fuel + 1) (c :: List.replicate m c) = _
  unfold splitGo
  rw [if_pos (by simpa using h)]

theorem splitGo_oversized (maxSize overlap lb fuel n : Nat) (c : Char)
    (hc : isBoundary c = false) (h : maxSize < n) :
    splitGo maxSize overlap lb (fuel + 1) (List.replicate n c)
      = List.replicate maxSize c
        :: splitGo maxSize overlap lb fuel
             (List.replicate (n - max (maxSize - overlap) 1) c) := by
  obtain ⟨m, rfl⟩ := Nat.exists_eq_succ_of_ne_zero (n := n) (by omega)
  have lhs_eq : splitGo maxSize overlap lb (fuel + 1) (List.replicate (m + 1) c)
      = if (List.replicate (m + 1) c).length ≤ maxSize
        then [List.replicate (m + 1) c]
        else List.take (findCut maxSize lb (List.replicate (m + 1) c)) (List.replicate (m + 1) c)
          :: splitGo maxSize overlap lb fuel
               (List.drop (max (findCut maxSize lb (List.replicate (m + 1) c) - overlap) 1)
                 (List.replicate (m + 1) c)) := rfl
  rw [lhs_eq, if_neg (by simp only [List.length_replicate]; omega),
      findCut_replicate maxSize lb (m + 1) c hc h,
      List.take_replicate, List.drop_replicate,
      Nat.min_eq_left (Nat.le_of_lt h)]

theorem splitSection_replicate_fits (maxSize overlap lb n : Nat) (c : Char)
    (h0 : n ≠ 0) (h : n ≤ maxSize) :
    splitSection maxSize overlap lb (List.replicate n c) = [List.replicate n c] := by
  unfold splitSection
  rw [if_neg (by simp [List.isEmpty_iff, h0])]
  rw [List.length_replicate]
  obtain ⟨m, rfl⟩ := Nat.exists_eq_succ_of_ne_zero h0
  exact splitGo_fits maxSize overlap lb (m + 1) (m + 1) c (by omega) h

theorem scenario_split_4000 :
    splitSection 1000 100 100 (List.replicate 4000 'a')
      = [List.replicate 1000 'a', List.replicate 1000 'a', List.replicate 1000 'a',
         List.replicate 1000 'a', List.replicate 400 'a'] := by
  have hc : isBoundary 'a' = false := by decide
  unfold splitSection
  rw [if_neg (by decide)]
  rw [List.length_replicate]
  have e1 : (4000 - max (1000 - 100) 1 : Nat) = 3100 := by decide
  have e2 : (3100 - max (1000 - 100) 1 : Nat) = 2200 := by decide
  have e3 : (2200 - max (1000 - 100) 1 : Nat) = 1300 := by decide
  have e4 : (1300 - max (1000 - 100) 1 : Nat) = 400 := by decide
  rw [splitGo_oversized 1000 100 100 4000 4000 'a' hc (by omega), e1,
      splitGo_oversized 1000 100 100 3999 3100 'a' hc (by omega), e2,
      splitGo_oversized 1000 100 100 3998 2200 'a' hc (by omega), e3,
      splitGo_oversized 1000 100 100 3997 1300 'a' hc (by omega), e4,
      splitGo_fits 1000 100 100 3996 400 'a' (by omega) (by omega)]

/-- The spec scenario document: three sections of 500, 4000 and 100
characters (boundary-free text, so the hard-cut fallback applies). -/
def scenarioSections : List SectionRec :=
  [SectionRec.mk 1 none (List.replicate 500 'a'),
   SectionRec.mk 2 none (List.replicate 4000 'a'),
   SectionRec.mk 3 none (List.replicate 100 'a')]

/-- The chunker output of the spec scenario, with max_chunk_size = 1000
and overlap = 100. -/
def scenarioChunks : List ChunkRec := chunkDocument 7 scenarioSections 1000 100 100

theorem scenarioChunks_eq :
    scenarioChunks =
      [ChunkRec.mk 7 (some 1) 0 (List.replicate 500 'a'),
       ChunkRec.mk 7 (some 2) 1 (List.replicate 1000 'a'),
       ChunkRec.mk 7 (some 2) 2 (List.replicate 1000 'a'),
       ChunkRec.mk 7 (some 2) 3 (List.replicate 1000 'a'),
       ChunkRec.mk 7 (some 2) 4 (List.replicate 1000 'a'),
       ChunkRec.mk 7 (some 2) 5 (List.replicate 400 'a'),
       ChunkRec.mk 7 (some 3) 6 (List.replicate 100 'a')] := by
  unfold scenarioChunks chunkDocument scenarioSections
  rw [show ([SectionRec.mk 1 none (List.replicate 500 'a'),
       SectionRec.mk 2 none (List.replicate 4000 'a'),
       SectionRec.mk 3 none (List.replicate 100 'a')].flatMap
      (fun s => (splitSection 1000 100 100 s.text).map (fun t => (s.sectionId, t))))
    = ((splitSection 1000 100 100 (List.replicate 500 'a')).map (fun t => (1, t))
       ++ ((splitSection 1000 100 100 (List.replicate 4000 'a')).map (fun t => (2, t))
       ++ (splitSection 1000 100 100 (List.replicate 100 'a')).map (fun t => (3, t)))) from by
    simp only [List.flatMap_cons, List.flatMap_nil, List.append_nil]]
  rw [splitSection_replicate_fits 1000 100 100 500 'a' (by omega) (by omega),
      splitSection_replicate_fits 1000 100 100 100 'a' (by omega) (by omega),
      scenario_split_4000]
  rfl

/-- C9: for a document with sections of 500, 4000 and 100 characters
chunked with max_chunk_size = 1000 and overlap = 100, the chunker yields
1 chunk for section 1, 5 chunks for section 2, 1 chunk for section 3:
7 chunks in total with indices 0 through 6. -/
theorem C9_scenario_chunk_counts :
    scenarioChunks.length = 7 ∧
    scenarioChunks.map (fun c => c.index) = [0, 1, 2, 3, 4, 5, 6] ∧
    (scenarioChunks.filter (fun c => c.sectionId == some 1)).length = 1 ∧
    (scenarioChunks.filter (fun c => c.sectionId == some 2)).length = 5 ∧
    (scenarioChunks.filter (fun c => c.sectionId == some 3)).length = 1 := by
  rw [scenarioChunks_eq]
  exact ⟨rfl, rfl, rfl, rfl, rfl⟩

/-! ## QA: context assembly, ask(), QA logging and feedback

The QALog and Feedback rows follow the migration exactly; the ask()
pipeline itself (RAG service) is not implemented in the repository and
is modelled from the spec.  ask is written once over the Provider
structure, so by construction no call site branches on provider
identity. -/

/-- A QALog row, from the QALog table of the migration.  The table has
exactly the columns id, question, answer (nullable), dryRun, createdAt. -/
structure QALogRow where
  id : Nat
  question : String
  answer : Option String
  dryRun : Bool
  createdAt : Nat
deriving Repr, DecidableEq

/-- The column set of the QALog table as created by the migration. -/
def qalogColumns : List String := ["id", "question", "answer", "dryRun", "createdAt"]

/-- A Feedback row, from the Feedback table of the migration: its own id
as primary key, a qaLogId foreign key (not unique: several rows per
QALog are allowed), rating, optional comment, createdAt. -/
structure FeedbackRow where
  id : Nat
  qaLogId : Nat
  rating : Nat
  comment : Option String
  createdAt : Nat
deriving Repr, DecidableEq

/-- A citation carried in an answer, from the spec data model
{qa_id, chunk_id, similarity_score, rank} (returned as the sources of
the AskResponse DTO; the migration has no table for it). -/
structure Citation where
  chunkId : Nat
  score : ℚ
  rank : Nat
deriving Repr, DecidableEq

/-- The answer payload, from the declared ask-response DTO:
answer, sources, qaLogId, dryRun. -/
structure AnswerResult where
  answer : String
  sources : List Citation
  qaLogId : Nat
  dryRun : Bool
deriving Repr, DecidableEq

/-- A stored chunk visible to retrieval: its id, text and embedding. -/
structure StoredChunk where
  chunkId : Nat
  text : String
  vec : Vec
deriving Repr, DecidableEq

/-- QA-side persistent state plus the effect trace. -/
structure QAState where
  qalogs : List QALogRow
  feedbacks : List FeedbackRow
  nextId : Nat
  now : Nat
  trace : Trace
deriving Repr, DecidableEq

/-- Modelled from the spec: the context walk of ContextAssembler.build,
appending ranked chunk texts while the next one still fits in
maxCtx. -/
def buildFrom (maxCtx : Nat) : String → List Citation → Nat → List (SearchResult × String) → String × List Citation
  | acc, cits, _, [] => (acc, cits)
  | acc, cits, rank, (r, t) :: rest =>
    if acc.length + t.length ≤ maxCtx then
      buildFrom maxCtx (acc ++ t) (cits ++ [Citation.mk r.chunkId r.score rank]) (rank + 1) rest
    else (acc, cits)

/-- Modelled from the spec: ContextAssembler.build walks ranked chunks in
descending-score order, appends until the next chunk would exceed
maxCtx, and always includes the single highest-ranked chunk, truncated
to fit rather than omitted. -/
def ContextAssembler.build (ranked : List (SearchResult × String)) (maxCtx : Nat) :
    String × List Citation :=
  match ranked with
  | [] => ("", [])
  | (r, t) :: rest =>
    buildFrom maxCtx (t.take maxCtx) [Citation.mk r.chunkId r.score 0] 1 rest

theorem buildFrom_cits_le (maxCtx : Nat) (l : List (SearchResult × String)) :
    ∀ (acc : String) (cits : List Citation) (rank : Nat),
    ((buildFrom maxCtx acc cits rank l).2).length ≤ cits.length + l.length := by
  induction l with
  | nil => intro acc cits rank; simp [buildFrom]
  | cons p rest ih =>
    intro acc cits rank
    obtain ⟨r, t⟩ := p
    show ((if acc.length + t.length ≤ maxCtx then
      buildFrom maxCtx (acc ++ t) (cits ++ [Citation.mk r.chunkId r.score rank]) (rank + 1) rest
      else (acc, cits)).2).length ≤ cits.length + (rest.length + 1)
    by_cases hc : acc.length + t.length ≤ maxCtx
    · rw [if_pos hc]
      have := ih (acc ++ t) (cits ++ [Citation.mk r.chunkId r.score rank]) (rank + 1)
      simp [List.length_append] at this ⊢
      omega
    · rw [if_neg hc]
      show cits.length ≤ cits.length + (rest.length + 1)
      omega

theorem build_cits_le (ranked : List (SearchResult × String)) (maxCtx : Nat) :
    ((ContextAssembler.build ranked maxCtx).2).length ≤ ranked.length := by
  match ranked with
  | [] => simp [ContextAssembler.build]
  | (r, t) :: rest =>
    show ((buildFrom maxCtx (t.take maxCtx) [Citation.mk r.chunkId r.score 0] 1 rest).2).length
      ≤ rest.length + 1
    have := buildFrom_cits_le maxCtx rest (t.take maxCtx) [Citation.mk r.chunkId r.score 0] 1
    simp only [List.length_cons, List.length_nil] at this
    omega

/-- The fixed system instruction of the message structure. -/
def systemInstruction : String :=
  "You are a legal assistant for Jamaican law. Answer only from the supplied context and cite sources."

/-- Modelled from the spec: ask() embeds the question, runs the
similarity search, assembles the context, calls the provider chat with
the fixed message structure, and always appends exactly one QALog row.
The similarity metric is a parameter as in SimilarityRetriever.search. -/
def ask (p : Provider) (sim : Vec → Vec → ℚ) (corpus : List StoredChunk)
    (st : QAState) (question : String) (maxChunks : Nat) (minSim : ℚ) (maxCtx : Nat) :
    AnswerResult × QAState :=
  let et := p.embed question st.trace
  let ranked := SimilarityRetriever.search sim (corpus.map (fun c => (c.chunkId, c.vec)))
    et.1 maxChunks minSim
  let withText := ranked.map (fun r =>
    (r, (((corpus.find? (fun c => c.chunkId == r.chunkId)).map (fun c => c.text)).getD "")))
  let built := ContextAssembler.build withText maxCtx
  let msgs := [ChatMessage.mk "system" systemInstruction,
               ChatMessage.mk "user" built.1,
               ChatMessage.mk "user" question]
  let ct := p.chat msgs et.2
  let row := QALogRow.mk st.nextId question (some ct.1.content) p.dryRun st.now
  (AnswerResult.mk ct.1.content built.2 st.nextId p.dryRun,
   { st with qalogs := st.qalogs ++ [row], nextId := st.nextId + 1, trace := ct.2 })

/-- Modelled from the spec: QARecorder.attach_feedback inserts a fresh
Feedback row (fresh primary key, never an update of an existing row). -/
def recordFeedback (st : QAState) (qaId rating : Nat) (comment : Option String) :
    Nat × QAState :=
  (st.nextId,
   { st with
     feedbacks := st.feedbacks ++ [FeedbackRow.mk st.nextId qaId rating comment st.now],
     nextId := st.nextId + 1 })

/-- C6 counterexample: the claim says the QARecord of a partially failed
ask() carries degraded = true, but the QALog table created by the
migration has no degraded column at all, so no QALog row can carry a
degraded flag. -/
theorem C6_counterexample_no_degraded_column : ¬ ("degraded" ∈ qalogColumns) := by
  decide

/-- C6 (amended): for every call to ask(), exactly one QALog row is
created, even when retrieval found zero citations; the row records the
question, the answer and the dry-run flag, but the schema has no
degraded column, so no degraded flag is recorded. -/
theorem C6_ask_exactly_one_qalog (p : Provider) (sim : Vec → Vec → ℚ)
    (corpus : List StoredChunk) (st : QAState) (question : String)
    (maxChunks : Nat) (minSim : ℚ) (maxCtx : Nat) :
    ((ask p sim corpus st question maxChunks minSim maxCtx).2).qalogs.length
      = st.qalogs.length + 1 ∧
    (∃ row, ((ask p sim corpus st question maxChunks minSim maxCtx).2).qalogs
        = st.qalogs ++ [row] ∧ row.question = question ∧ row.dryRun = p.dryRun) := by
  constructor
  · show (st.qalogs ++ [_]).length = st.qalogs.length + 1
    simp
  · exact ⟨_, rfl, rfl, rfl⟩

/-- C7: feedback is append-only: submitting feedback twice for the same
qa_id (rating 5 both times) appends two distinct Feedback rows and
leaves every existing row untouched; nothing is overwritten or
upserted. -/
theorem C7_feedback_append_only (st : QAState) (qaId : Nat) (c₁ c₂ : Option String) :
    ((recordFeedback (recordFeedback st qaId 5 c₁).2 qaId 5 c₂).2).feedbacks.length
      = st.feedbacks.length + 2 ∧
    (∃ r₁ r₂, ((recordFeedback (recordFeedback st qaId 5 c₁).2 qaId 5 c₂).2).feedbacks
        = st.feedbacks ++ [r₁, r₂] ∧ r₁.id ≠ r₂.id ∧
        r₁.qaLogId = qaId ∧ r₂.qaLogId = qaId ∧ r₁.rating = 5 ∧ r₂.rating = 5) := by
  constructor
  · simp [recordFeedback]
  · refine ⟨FeedbackRow.mk st.nextId qaId 5 c₁ st.now,
            FeedbackRow.mk (st.nextId + 1) qaId 5 c₂ st.now, ?_, ?_, rfl, rfl, rfl, rfl⟩
    · simp [recordFeedback]
    · show st.nextId ≠ st.nextId + 1
      omega

theorem dryRunChat_content_ne_empty (msgs : List ChatMessage) :
    (dryRunChat msgs).content ≠ "" := by
  intro h
  have hl : ((("[dry-run] placeholder answer based on: " : String)
      ++ String.join (msgs.map (fun m => m.content))).length) = (0 : Nat) := by
    rw [show ("[dry-run] placeholder answer based on: " ++ String.join (msgs.map (fun m => m.content))) = (dryRunChat msgs).content from rfl, h]
    rfl
  rw [String.length_append] at hl
  have hlit : ("[dry-run] placeholder answer based on: " : String).length = 39 := rfl
  omega

/-- C8: in dry-run mode ask() performs no network call (the effect trace
is unchanged) and returns a structurally valid AnswerResult: dryRun is
true, the answer is a nonempty placeholder, the sources stay within
maxChunks, and the qaLogId points at the one QALog row appended by this
call.  ask is a single function over the Provider structure, so the
dry-run result flows through the exact same contract shape as the live
result. -/
theorem C8_dry_run_ask_no_network (sim : Vec → Vec → ℚ) (corpus : List StoredChunk)
    (st : QAState) (question : String) (maxChunks : Nat) (minSim : ℚ) (maxCtx : Nat) :
    ((ask DryRunProvider sim corpus st question maxChunks minSim maxCtx).2).trace = st.trace ∧
    (ask DryRunProvider sim corpus st question maxChunks minSim maxCtx).1.dryRun = true ∧
    (ask DryRunProvider sim corpus st question maxChunks minSim maxCtx).1.answer ≠ "" ∧
    (ask DryRunProvider sim corpus st question maxChunks minSim maxCtx).1.sources.length ≤ maxChunks ∧
    (∃ row, ((ask DryRunProvider sim corpus st question maxChunks minSim maxCtx).2).qalogs
        = st.qalogs ++ [row] ∧
        row.id = (ask DryRunProvider sim corpus st question maxChunks minSim maxCtx).1.qaLogId ∧
        row.dryRun = true) := by
  refine ⟨rfl, rfl, ?_, ?_, ⟨_, rfl, rfl, rfl⟩⟩
  · exact dryRunChat_content_ne_empty _
  · show ((ContextAssembler.build _ maxCtx).2).length ≤ maxChunks
    refine le_trans (build_cits_le _ maxCtx) ?_
    rw [List.length_map]
    exact search_length_le sim _ (dryRunVec question) maxChunks minSim

/-! ## Relational store: rows, operations and referential actions

The rows and the referential actions below follow the migration:
Section.documentId ON DELETE CASCADE, Chunk.documentId ON DELETE
CASCADE, Chunk.sectionId ON DELETE SET NULL, Embedding.chunkId ON
DELETE CASCADE, and the unique index Embedding_chunkId_key.  The
Embedding.vector column is nullable in the schema, hence an Option in
the row; the write path (modelled from the spec: EmbeddingGenerator
writes a complete embedding once, all-or-nothing) never stores a null
vector. -/

/-- A Document row (columns relevant to the claims). -/
structure DocumentRow where
  id : Nat
  title : String
deriving Repr, DecidableEq

/-- A Section row. -/
structure SectionRow where
  id : Nat
  documentId : Nat
  index : Nat
  heading : Option String
  text : String
deriving Repr, DecidableEq

/-- A Chunk row; sectionId is nullable in the schema. -/
structure ChunkRow where
  id : Nat
  documentId : Nat
  sectionId : Option Nat
  index : Nat
  text : String
deriving Repr, DecidableEq

/-- An Embedding row; the vector column is nullable in the schema. -/
structure EmbeddingRow where
  id : Nat
  chunkId : Nat
  vector : Option Vec
deriving Repr, DecidableEq

/-- The relational state. -/
structure DBState where
  documents : List DocumentRow
  sections : List SectionRow
  chunks : List ChunkRow
  embeddings : List EmbeddingRow
  nextId : Nat
deriving Repr, DecidableEq

def emptyDB : DBState := ⟨[], [], [], [], 1⟩

def insertDocument (st : DBState) (title : String) : DBState :=
  { st with
    documents := st.documents ++ [DocumentRow.mk st.nextId title],
    nextId := st.nextId + 1 }

/-- Insert a section; the foreign key requires an existing document. -/
def insertSection (st : DBState) (docId idx : Nat) (heading : Option String)
    (text : String) : DBState :=
  if st.documents.any (fun d => decide (d.id = docId)) then
    { st with
      sections := st.sections ++ [SectionRow.mk st.nextId docId idx heading text],
      nextId := st.nextId + 1 }
  else st

/-- Insert a chunk; the foreign keys require an existing document and,
when given, an existing section. -/
def insertChunk (st : DBState) (docId : Nat) (sectionId : Option Nat) (idx : Nat)
    (text : String) : DBState :=
  if st.documents.any (fun d => decide (d.id = docId))
      && (match sectionId with
          | none => true
          | some sid => st.sections.any (fun s => decide (s.id = sid))) then
    { st with
      chunks := st.chunks ++ [ChunkRow.mk st.nextId docId sectionId idx text],
      nextId := st.nextId + 1 }
  else st

/-- Modelled from the spec: EmbeddingGenerator writes an embedding for an
existing chunk once (Embedding_chunkId_key), all-or-nothing: the vector
(of the fixed dimension) is stored complete or nothing is written. -/
def writeEmbedding (st : DBState) (chunkId : Nat) (vec : Vec) : DBState :=
  if st.chunks.any (fun c => decide (c.id = chunkId))
      && !(st.embeddings.any (fun e => decide (e.chunkId = chunkId)))
      && decide (vec.length = embeddingDim) then
    { st with
      embeddings := st.embeddings ++ [EmbeddingRow.mk st.nextId chunkId (some vec)],
      nextId := st.nextId + 1 }
  else st

/-- Delete a document: sections and chunks of the document are cascade
deleted; embeddings of the deleted chunks are cascade deleted in turn;
chunks of other documents that referenced a deleted section get their
sectionId set to null (the SET NULL action fires for the cascaded
section deletions as well). -/
def deleteDocument (st : DBState) (docId : Nat) : DBState :=
  { st with
    documents := st.documents.filter (fun d => !(decide (d.id = docId))),
    sections := st.sections.filter (fun s => !(decide (s.documentId = docId))),
    chunks := (st.chunks.filter (fun c => !(decide (c.documentId = docId)))).map
      (fun c => match c.sectionId with
        | some sid =>
          if st.sections.any (fun s => decide (s.id = sid) && decide (s.documentId = docId)) then
            { c with sectionId := none }
          else c
        | none => c),
    embeddings := st.embeddings.filter (fun e =>
      !(st.chunks.any (fun c => decide (c.documentId = docId) && decide (c.id = e.chunkId)))) }

/-- Delete a section: chunks derived from it are kept, their sectionId
is set to null. -/
def deleteSection (st : DBState) (sectionId : Nat) : DBState :=
  { st with
    sections := st.sections.filter (fun s => !(decide (s.id = sectionId))),
    chunks := st.chunks.map (fun c =>
      if decide (c.sectionId = some sectionId) then { c with sectionId := none } else c) }

/-- Delete a chunk: its embedding is cascade deleted. -/
def deleteChunk (st : DBState) (chunkId : Nat) : DBState :=
  { st with
    chunks := st.chunks.filter (fun c => !(decide (c.id = chunkId))),
    embeddings := st.embeddings.filter (fun e => !(decide (e.chunkId = chunkId))) }

/-- The states reachable by the store operations. -/
inductive Reachable : DBState → Prop
  | init : Reachable emptyDB
  | doc (st : DBState) (title : String) :
      Reachable st → Reachable (insertDocument st title)
  | sec (st : DBState) (docId idx : Nat) (heading : Option String) (text : String) :
      Reachable st → Reachable (insertSection st docId idx heading text)
  | chn (st : DBState) (docId : Nat) (sectionId : Option Nat) (idx : Nat) (text : String) :
      Reachable st → Reachable (insertChunk st docId sectionId idx text)
  | emb (st : DBState) (chunkId : Nat) (vec : Vec) :
      Reachable st → Reachable (writeEmbedding st chunkId vec)
  | delDoc (st : DBState) (docId : Nat) :
      Reachable st → Reachable (deleteDocument st docId)
  | delSec (st : DBState) (sectionId : Nat) :
      Reachable st → Reachable (deleteSection st sectionId)
  | delChn (st : DBState) (chunkId : Nat) :
      Reachable st → Reachable (deleteChunk st chunkId)

/-- Referential integrity: every Section references an existing
Document, every Chunk an existing Document and (when non-null) an
existing Section, every Embedding an existing Chunk. -/
def refIntegrity (st : DBState) : Prop :=
  (∀ s ∈ st.sections, ∃ d ∈ st.documents, d.id = s.documentId) ∧
  (∀ c ∈ st.chunks, ∃ d ∈ st.documents, d.id = c.documentId) ∧
  (∀ c ∈ st.chunks, ∀ sid, c.sectionId = some sid → ∃ s ∈ st.sections, s.id = sid) ∧
  (∀ e ∈ st.embeddings, ∃ c ∈ st.chunks, c.id = e.chunkId)

/-- Embedding well-formedness: at most one embedding per chunk, and no
partially written embedding (every stored row has a complete vector of
the fixed dimension). -/
def embWellFormed (st : DBState) : Prop :=
  (∀ e ∈ st.embeddings, ∃ v, e.vector = some v ∧ v.length = embeddingDim) ∧
  List.Pairwise (fun a b => a.chunkId ≠ b.chunkId) st.embeddings

theorem refIntegrity_insertDocument (st : DBState) (title : String)
    (h : refIntegrity st) : refIntegrity (insertDocument st title) := by
  obtain ⟨h1, h2, h3, h4⟩ := h
  refine ⟨?_, ?_, ?_, h4⟩
  · intro s hs
    obtain ⟨d, hd, hde⟩ := h1 s hs
    exact ⟨d, List.mem_append_left _ hd, hde⟩
  · intro c hc
    obtain ⟨d, hd, hde⟩ := h2 c hc
    exact ⟨d, List.mem_append_left _ hd, hde⟩
  · exact h3

theorem refIntegrity_insertSection (st : DBState) (docId idx : Nat)
    (heading : Option String) (text : String) (h : refIntegrity st) :
    refIntegrity (insertSection st docId idx heading text) := by
  obtain ⟨h1, h2, h3, h4⟩ := h
  unfold insertSection
  split
  case isFalse => exact ⟨h1, h2, h3, h4⟩
  case isTrue hcond =>
    obtain ⟨d, hd, hdp⟩ := List.any_eq_true.mp hcond
    have hdid : d.id = docId := of_decide_eq_true hdp
    refine ⟨?_, h2, ?_, h4⟩
    · intro s hs
      rcases List.mem_append.mp hs with hs | hs
      · exact h1 s hs
      · rw [List.mem_singleton.mp hs]
        exact ⟨d, hd, hdid⟩
    · intro c hc sid hsid
      obtain ⟨s, hsmem, hsid2⟩ := h3 c hc sid hsid
      exact ⟨s, List.mem_append_left _ hsmem, hsid2⟩

theorem refIntegrity_insertChunk (st : DBState) (docId : Nat)
    (sectionId : Option Nat) (idx : Nat) (text : String) (h : refIntegrity st) :
    refIntegrity (insertChunk st docId sectionId idx text) := by
  obtain ⟨h1, h2, h3, h4⟩ := h
  unfold insertChunk
  split
  case isFalse => exact ⟨h1, h2, h3, h4⟩
  case isTrue hcond =>
    rw [Bool.and_eq_true] at hcond
    obtain ⟨hdoc, hsec⟩ := hcond
    obtain ⟨d, hd, hdp⟩ := List.any_eq_true.mp hdoc
    have hdid : d.id = docId := of_decide_eq_true hdp
    refine ⟨h1, ?_, ?_, ?_⟩
    · intro c hc
      rcases List.mem_append.mp hc with hc | hc
      · exact h2 c hc
      · rw [List.mem_singleton.mp hc]
        exact ⟨d, hd, hdid⟩
    · intro c hc sid hsid
      rcases List.mem_append.mp hc with hc | hc
      · exact h3 c hc sid hsid
      · rw [List.mem_singleton.mp hc] at hsid
        simp only at hsid
        rw [hsid] at hsec
        obtain ⟨s, hsmem, hsp⟩ := List.any_eq_true.mp hsec
        exact ⟨s, hsmem, of_decide_eq_true hsp⟩
    · intro e he
      obtain ⟨c, hcmem, hce⟩ := h4 e he
      exact ⟨c, List.mem_append_left _ hcmem, hce⟩

theorem refIntegrity_writeEmbedding (st : DBState) (chunkId : Nat) (vec : Vec)
    (h : refIntegrity st) : refIntegrity (writeEmbedding st chunkId vec) := by
  obtain ⟨h1, h2, h3, h4⟩ := h
  unfold writeEmbedding
  split
  case isFalse => exact ⟨h1, h2, h3, h4⟩
  case isTrue hcond =>
    rw [Bool.and_eq_true, Bool.and_eq_true] at hcond
    obtain ⟨⟨hchunk, _⟩, _⟩ := hcond
    obtain ⟨c, hc, hcp⟩ := List.any_eq_true.mp hchunk
    refine ⟨h1, h2, h3, ?_⟩
    intro e he
    rcases List.mem_append.mp he with he | he
    · exact h4 e he
    · rw [List.mem_singleton.mp he]
      exact ⟨c, hc, of_decide_eq_true hcp⟩

theorem refIntegrity_deleteDocument (st : DBState) (docId : Nat)
    (h : refIntegrity st) : refIntegrity (deleteDocument st docId) := by
  obtain ⟨h1, h2, h3, h4⟩ := h
  refine ⟨?_, ?_, ?_, ?_⟩
  · intro s hs
    obtain ⟨hsmem, hsp⟩ := List.mem_filter.mp hs
    have hsne : s.documentId ≠ docId := by
      simpa using hsp
    obtain ⟨d, hd, hde⟩ := h1 s hsmem
    refine ⟨d, List.mem_filter.mpr ⟨hd, ?_⟩, hde⟩
    simpa [hde] using hsne
  · intro c' hc'
    obtain ⟨c, hcmem, hfc⟩ := List.mem_map.mp hc'
    obtain ⟨hcin, hcp⟩ := List.mem_filter.mp hcmem
    have hcne : c.documentId ≠ docId := by simpa using hcp
    have hdoceq : c'.documentId = c.documentId := by
      rcases hsid : c.sectionId with _ | s0 <;> simp only [hsid] at hfc
      · rw [← hfc]
      · by_cases hany : (st.sections.any
          (fun s => decide (s.id = s0) && decide (s.documentId = docId))) = true
        · rw [if_pos hany] at hfc
          rw [← hfc]
        · rw [if_neg hany] at hfc
          rw [← hfc]
    obtain ⟨d, hd, hde⟩ := h2 c hcin
    refine ⟨d, List.mem_filter.mpr ⟨hd, ?_⟩, by rw [hdoceq, hde]⟩
    simp only [hde, Bool.not_eq_true', decide_eq_false_iff_not]
    exact hcne
  · intro c' hc' sid hsid'
    obtain ⟨c, hcmem, hfc⟩ := List.mem_map.mp hc'
    obtain ⟨hcin, hcp⟩ := List.mem_filter.mp hcmem
    rcases hsid : c.sectionId with _ | s0 <;> simp only [hsid] at hfc
    · rw [← hfc] at hsid'
      rw [hsid] at hsid'
      cases hsid'
    · by_cases hany : (st.sections.any
        (fun s => decide (s.id = s0) && decide (s.documentId = docId))) = true
      · rw [if_pos hany] at hfc
        rw [← hfc] at hsid'
        cases hsid'
      · rw [if_neg hany] at hfc
        rw [← hfc] at hsid'
        rw [hsid] at hsid'
        obtain rfl : s0 = sid := by injection hsid'
        obtain ⟨s, hsmem, hsid2⟩ := h3 c hcin s0 hsid
        have hnone := List.any_eq_false.mp (Bool.eq_false_iff.mpr hany) s hsmem
        have hsne : s.documentId ≠ docId := by
          intro hcontra
          apply hnone
          simp [hsid2, hcontra]
        refine ⟨s, List.mem_filter.mpr ⟨hsmem, by simpa using hsne⟩, hsid2⟩
  · intro e he
    obtain ⟨hein, hep⟩ := List.mem_filter.mp he
    have hnone : (st.chunks.any
        (fun c => decide (c.documentId = docId) && decide (c.id = e.chunkId))) = false := by
      simpa using hep
    obtain ⟨c, hcmem, hce⟩ := h4 e hein
    have hcne : c.documentId ≠ docId := by
      intro hcontra
      have := List.any_eq_false.mp hnone c hcmem
      apply this
      simp [hcontra, hce]
    have hcfil : c ∈ st.chunks.filter (fun c => !(decide (c.documentId = docId))) :=
      List.mem_filter.mpr ⟨hcmem, by simpa using hcne⟩
    refine ⟨_, List.mem_map_of_mem _ hcfil, ?_⟩
    rcases hsid : c.sectionId with _ | s0 <;> simp only [hsid]
    · simpa using hce
    · by_cases hany : (st.sections.any
        (fun s => decide (s.id = s0) && decide (s.documentId = docId))) = true
      · rw [if_pos hany]
        simpa using hce
      · rw [if_neg hany]
        exact hce

theorem refIntegrity_deleteSection (st : DBState) (sectionId : Nat)
    (h : refIntegrity st) : refIntegrity (deleteSection st sectionId) := by
  obtain ⟨h1, h2, h3, h4⟩ := h
  refine ⟨?_, ?_, ?_, ?_⟩
  · intro s hs
    exact h1 s (List.mem_filter.mp hs).1
  · intro c' hc'
    obtain ⟨c, hcmem, hfc⟩ := List.mem_map.mp hc'
    have hdoceq : c'.documentId = c.documentId := by
      by_cases hif : (decide (c.sectionId = some sectionId)) = true <;>
        [rw [if_pos hif] at hfc; rw [if_neg hif] at hfc] <;> rw [← hfc]
    obtain ⟨d, hd, hde⟩ := h2 c hcmem
    exact ⟨d, hd, by rw [hdoceq, hde]⟩
  · intro c' hc' sid hsid'
    obtain ⟨c, hcmem, hfc⟩ := List.mem_map.mp hc'
    by_cases hif : (decide (c.sectionId = some sectionId)) = true
    · rw [if_pos hif] at hfc
      rw [← hfc] at hsid'
      cases hsid'
    · rw [if_neg hif] at hfc
      rw [← hfc] at hsid'
      have hceq : c.sectionId = some sid := hsid'
      have hne : sid ≠ sectionId := by
        intro hcontra
        apply hif
        rw [hceq, hcontra]
        exact decide_eq_true rfl
      obtain ⟨s, hsmem, hsid2⟩ := h3 c hcmem sid hceq
      refine ⟨s, List.mem_filter.mpr ⟨hsmem, ?_⟩, hsid2⟩
      simp only [Bool.not_eq_true', decide_eq_false_iff_not]
      rw [hsid2]
      exact hne
  · intro e he
    obtain ⟨c, hcmem, hce⟩ := h4 e he
    refine ⟨_, List.mem_map_of_mem _ hcmem, ?_⟩
    by_cases hif : (decide (c.sectionId = some sectionId)) = true <;>
      [rw [if_pos hif]; rw [if_neg hif]] <;> simpa using hce

theorem refIntegrity_deleteChunk (st : DBState) (chunkId : Nat)
    (h : refIntegrity st) : refIntegrity (deleteChunk st chunkId) := by
  obtain ⟨h1, h2, h3, h4⟩ := h
  refine ⟨h1, ?_, ?_, ?_⟩
  · intro c hc
    exact h2 c (List.mem_filter.mp hc).1
  · intro c hc sid hsid
    exact h3 c (List.mem_filter.mp hc).1 sid hsid
  · intro e he
    obtain ⟨hein, hep⟩ := List.mem_filter.mp he
    have hene : e.chunkId ≠ chunkId := by simpa using hep
    obtain ⟨c, hcmem, hce⟩ := h4 e hein
    refine ⟨c, List.mem_filter.mpr ⟨hcmem, ?_⟩, hce⟩
    simp only [Bool.not_eq_true', decide_eq_false_iff_not]
    rw [hce]
    exact hene

theorem embWF_insertDocument (st : DBState) (title : String)
    (h : embWellFormed st) : embWellFormed (insertDocument st title) := h

theorem embWF_insertSection (st : DBState) (docId idx : Nat) (heading : Option String)
    (text : String) (h : embWellFormed st) :
    embWellFormed (insertSection st docId idx heading text) := by
  unfold insertSection
  split <;> exact h

theorem embWF_insertChunk (st : DBState) (docId : Nat) (sectionId : Option Nat)
    (idx : Nat) (text : String) (h : embWellFormed st) :
    embWellFormed (insertChunk st docId sectionId idx text) := by
  unfold insertChunk
  split <;> exact h

theorem embWF_deleteSection (st : DBState) (sectionId : Nat)
    (h : embWellFormed st) : embWellFormed (deleteSection st sectionId) := h

theorem embWF_writeEmbedding (st : DBState) (chunkId : Nat) (vec : Vec)
    (h : embWellFormed st) : embWellFormed (writeEmbedding st chunkId vec) := by
  obtain ⟨h1, h2⟩ := h
  unfold writeEmbedding
  split
  case isFalse => exact ⟨h1, h2⟩
  case isTrue hcond =>
    rw [Bool.and_eq_true, Bool.and_eq_true] at hcond
    obtain ⟨⟨_, hnotdup⟩, hlen⟩ := hcond
    have hlen2 : vec.length = embeddingDim := of_decide_eq_true hlen
    have hnone : (st.embeddings.any (fun e => decide (e.chunkId = chunkId))) = false := by
      simpa using hnotdup
    constructor
    · intro e he
      rcases List.mem_append.mp he with he | he
      · exact h1 e he
      · rw [List.mem_singleton.mp he]
        exact ⟨vec, rfl, hlen2⟩
    · rw [List.pairwise_append]
      refine ⟨h2, by simp, ?_⟩
      intro a ha b hb
      rw [List.mem_singleton.mp hb]
      have hne := List.any_eq_false.mp hnone a ha
      intro hcontra
      apply hne
      simpa using hcontra

theorem embWF_deleteDocument (st : DBState) (docId : Nat)
    (h : embWellFormed st) : embWellFormed (deleteDocument st docId) := by
  obtain ⟨h1, h2⟩ := h
  constructor
  · intro e he
    exact h1 e (List.mem_filter.mp he).1
  · exact List.Pairwise.sublist (List.filter_sublist _) h2

theorem embWF_deleteChunk (st : DBState) (chunkId : Nat)
    (h : embWellFormed st) : embWellFormed (deleteChunk st chunkId) := by
  obtain ⟨h1, h2⟩ := h
  constructor
  · intro e he
    exact h1 e (List.mem_filter.mp he).1
  · exact List.Pairwise.sublist (List.filter_sublist _) h2

theorem reachable_refIntegrity (st : DBState) (h : Reachable st) : refIntegrity st := by
  induction h with
  | init =>
    refine ⟨?_, ?_, ?_, ?_⟩ <;> simp [emptyDB]
  | doc st title _ ih => exact refIntegrity_insertDocument st title ih
  | sec st docId idx heading text _ ih => exact refIntegrity_insertSection st docId idx heading text ih
  | chn st docId sectionId idx text _ ih => exact refIntegrity_insertChunk st docId sectionId idx text ih
  | emb st chunkId vec _ ih => exact refIntegrity_writeEmbedding st chunkId vec ih
  | delDoc st docId _ ih => exact refIntegrity_deleteDocument st docId ih
  | delSec st sectionId _ ih => exact refIntegrity_deleteSection st sectionId ih
  | delChn st chunkId _ ih => exact refIntegrity_deleteChunk st chunkId ih

theorem reachable_embWellFormed (st : DBState) (h : Reachable st) : embWellFormed st := by
  induction h with
  | init =>
    refine ⟨?_, ?_⟩ <;> simp [emptyDB]
  | doc st title _ ih => exact embWF_insertDocument st title ih
  | sec st docId idx heading text _ ih => exact embWF_insertSection st docId idx heading text ih
  | chn st docId sectionId idx text _ ih => exact embWF_insertChunk st docId sectionId idx text ih
  | emb st chunkId vec _ ih => exact embWF_writeEmbedding st chunkId vec ih
  | delDoc st docId _ ih => exact embWF_deleteDocument st docId ih
  | delSec st sectionId _ ih => exact embWF_deleteSection st sectionId ih
  | delChn st chunkId _ ih => exact embWF_deleteChunk st chunkId ih

/-- C4: in every reachable store state there is at most one Embedding
row per chunk (the unique index on chunkId holds) and no embedding is
partially written: every stored row carries a complete vector of the
fixed dimension, or no row exists for the chunk at all. -/
theorem C4_embedding_unique_and_complete (st : DBState) (h : Reachable st) :
    (∀ e ∈ st.embeddings, ∃ v, e.vector = some v ∧ v.length = embeddingDim) ∧
    List.Pairwise (fun a b => a.chunkId ≠ b.chunkId) st.embeddings :=
  reachable_embWellFormed st h

/-- C4 witness: the invariant holds at the concrete state reached by
inserting a document, a chunk and one complete embedding. -/
theorem C4_embedding_unique_and_complete_witness :
    (∀ e ∈ (writeEmbedding (insertChunk (insertDocument emptyDB "Interpretation Act")
        1 none 0 "text") 2 (dryRunVec "q")).embeddings,
      ∃ v, e.vector = some v ∧ v.length = embeddingDim) ∧
    List.Pairwise (fun a b => a.chunkId ≠ b.chunkId)
      (writeEmbedding (insertChunk (insertDocument emptyDB "Interpretation Act")
        1 none 0 "text") 2 (dryRunVec "q")).embeddings :=
  C4_embedding_unique_and_complete _
    (Reachable.emb _ _ _ (Reachable.chn _ _ _ _ _ (Reachable.doc _ _ Reachable.init)))

/-- C10: every delete preserves referential integrity (no reachable
state holds a Chunk referencing a missing Document, a Chunk referencing
a missing Section, or an Embedding referencing a missing Chunk);
deleting a Document deletes all of its Section and Chunk rows; deleting
a Chunk deletes its Embedding row; deleting a Section keeps the chunks
derived from it (same id, documentId, index and text) and only sets
their sectionId to null. -/
theorem C10_referential_integrity_deletes :
    (∀ st, Reachable st → refIntegrity st) ∧
    (∀ st docId, (∀ s ∈ (deleteDocument st docId).sections, s.documentId ≠ docId) ∧
      (∀ c ∈ (deleteDocument st docId).chunks, c.documentId ≠ docId)) ∧
    (∀ st chunkId, ∀ e ∈ (deleteChunk st chunkId).embeddings, e.chunkId ≠ chunkId) ∧
    (∀ st sectionId,
      ((deleteSection st sectionId).chunks.map (fun c => (c.id, c.documentId, c.index, c.text))
        = st.chunks.map (fun c => (c.id, c.documentId, c.index, c.text))) ∧
      (∀ c ∈ (deleteSection st sectionId).chunks, c.sectionId ≠ some sectionId)) := by
  refine ⟨reachable_refIntegrity, ?_, ?_, ?_⟩
  · intro st docId
    constructor
    · intro s hs
      have := (List.mem_filter.mp hs).2
      simpa using this
    · intro c' hc'
      obtain ⟨c, hcmem, hfc⟩ := List.mem_map.mp hc'
      have hcne : c.documentId ≠ docId := by
        have := (List.mem_filter.mp hcmem).2
        simpa using this
      have hdoceq : c'.documentId = c.documentId := by
        rcases hsid : c.sectionId with _ | s0 <;> simp only [hsid] at hfc
        · rw [← hfc]
        · by_cases hany : (st.sections.any
            (fun s => decide (s.id = s0) && decide (s.documentId = docId))) = true
          · rw [if_pos hany] at hfc
            rw [← hfc]
          · rw [if_neg hany] at hfc
            rw [← hfc]
      rw [hdoceq]
      exact hcne
  · intro st chunkId e he
    have := (List.mem_filter.mp he).2
    simpa using this
  · intro st sectionId
    constructor
    · show List.map _ (st.chunks.map _) = _
      rw [List.map_map]
      apply List.map_congr_left
      intro c _
      by_cases hif : (decide (c.sectionId = some sectionId)) = true <;>
        [rw [Function.comp_apply, if_pos hif]; rw [Function.comp_apply, if_neg hif]]
    · intro c' hc'
      obtain ⟨c, _, hfc⟩ := List.mem_map.mp hc'
      by_cases hif : (decide (c.sectionId = some sectionId)) = true
      · rw [if_pos hif] at hfc
        rw [← hfc]
        simp
      · rw [if_neg hif] at hfc
        rw [← hfc]
        simpa using hif

/-- C10 witness: referential integrity at the concrete state reached by
inserting a document with a section, then deleting the document. -/
theorem C10_referential_integrity_deletes_witness :
    refIntegrity (deleteDocument (insertSection (insertDocument emptyDB "Interpretation Act")
      1 0 none "s") 1) :=
  C10_referential_integrity_deletes.1 _
    (Reachable.delDoc _ _ (Reachable.sec _ _ _ _ _ (Reachable.doc _ _ Reachable.init)))

/-! ## ContentVersioner and index_document

Modelled from the spec (the versioning/indexing pipeline is described in
the design documents but not implemented in the repository): canonical
hashing after whitespace normalization, version classification as NEW /
UPDATED / UNCHANGED, and the UNCHANGED short-circuit that only touches
last_seen_at. -/

/-- A DocumentVersion record, from the spec data model. -/
structure VersionRec where
  slug : Nat
  contentHash : Nat
  versionNumber : Nat
  firstSeenAt : Nat
  lastSeenAt : Nat
  validFrom : Nat
  validTo : Option Nat
deriving Repr, DecidableEq

/-- An embedding held by the ingestion engine, keyed by document and
chunk index. -/
structure EngineEmbedding where
  documentId : Nat
  chunkIndex : Nat
  vector : Vec
deriving Repr, DecidableEq

/-- The ingestion-engine state: versions, chunks, embeddings, clock. -/
structure EngineState where
  versions : List VersionRec
  chunks : List ChunkRec
  embeddings : List EngineEmbedding
  now : Nat
deriving Repr, DecidableEq

/-- Whitespace, for canonicalization. -/
def isWhite (c : Char) : Bool := c = ' ' || c = '\n' || c = '\t' || c = '\r'

/-- Collapse whitespace runs to a single space (the flag records whether
the previous kept character position is inside a whitespace run). -/
def squeeze : List Char → Bool → List Char
  | [], _ => []
  | c :: cs, prevWhite =>
    if isWhite c then
      if prevWhite then squeeze cs true else ' ' :: squeeze cs true
    else c :: squeeze cs false

/-- Modelled from the spec: canonicalize text before hashing, so
insignificant formatting differences do not trigger re-indexing. -/
def canonicalize (t : List Char) : List Char :=
  ((squeeze t true).reverse.dropWhile isWhite).reverse

/-- A deterministic content hash over characters. -/
def hashChars (t : List Char) : Nat :=
  t.foldl (fun h c => (h * 31 + c.toNat) % 1000003) 7

/-- Modelled from the spec: the canonical hash of a raw text. -/
def canonicalHash (t : List Char) : Nat := hashChars (canonicalize t)

/-- The raw text of a document: its section texts in order. -/
def rawText (sections : List SectionRec) : List Char :=
  sections.flatMap (fun s => s.text ++ ['\n'])

/-- The current version of a slug: the one with validTo = null. -/
def currentVersion (st : EngineState) (slug : Nat) : Option VersionRec :=
  st.versions.find? (fun v => decide (v.slug = slug) && decide (v.validTo = none))

inductive ClassifyStatus
  | NEW
  | UPDATED
  | UNCHANGED
deriving Repr, DecidableEq

/-- Modelled from the spec: index_document classifies the incoming
document by canonical hash against the current version.  No current
version: NEW, version 1, chunk and embed.  Hash differs: UPDATED, close
the current version, next version number, re-chunk (the old chunk set of
the document is discarded as one logical operation) and re-embed.  Hash
matches: UNCHANGED, update last_seen_at only and skip chunking and
embedding entirely. -/
def indexDocument (st : EngineState) (slug : Nat) (sections : List SectionRec)
    (maxSize overlap lb : Nat) (embedVec : List Char → Vec) :
    EngineState × ClassifyStatus :=
  let h := canonicalHash (rawText sections)
  let newChunks := chunkDocument slug sections maxSize overlap lb
  let newEmbeds := newChunks.map (fun c => EngineEmbedding.mk slug c.index (embedVec c.text))
  match currentVersion st slug with
  | none =>
    ({ versions := VersionRec.mk slug h 1 st.now st.now st.now none :: st.versions,
       chunks := st.chunks.filter (fun c => !(decide (c.documentId = slug))) ++ newChunks,
       embeddings := st.embeddings.filter (fun e => !(decide (e.documentId = slug))) ++ newEmbeds,
       now := st.now }, ClassifyStatus.NEW)
  | some v =>
    if v.contentHash = h then
      ({ st with
         versions := st.versions.map (fun w =>
           if decide (w.slug = slug) && decide (w.validTo = none) then
             { w with lastSeenAt := st.now }
           else w) }, ClassifyStatus.UNCHANGED)
    else
      ({ versions := VersionRec.mk slug h (v.versionNumber + 1) st.now st.now st.now none
           :: st.versions.map (fun w =>
             if decide (w.slug = slug) && decide (w.validTo = none) then
               { w with validTo := some st.now }
             else w),
         chunks := st.chunks.filter (fun c => !(decide (c.documentId = slug))) ++ newChunks,
         embeddings := st.embeddings.filter (fun e => !(decide (e.documentId = slug))) ++ newEmbeds,
         now := st.now }, ClassifyStatus.UPDATED)

theorem find?_map_of_pred_eq (g : VersionRec → VersionRec) (p : VersionRec → Bool)
    (hg : ∀ w, p (g w) = p w) (l : List VersionRec) :
    (l.map g).find? p = (l.find? p).map g := by
  induction l with
  | nil => rfl
  | cons w l ih =>
    rw [List.map_cons, List.find?_cons, List.find?_cons, hg w]
    cases h : p w <;> simp [ih]

/-- C5: when the canonical content hash of the incoming document matches
the stored current version, index_document classifies it UNCHANGED,
creates zero new chunks and zero new embeddings, changes no version row
except for last_seen_at (slug, hash, version_number, first_seen_at,
valid_from and valid_to all stay), and stamps the current version's
last_seen_at with the current time. -/
theorem C5_unchanged_is_idempotent (st : EngineState) (slug : Nat)
    (sections : List SectionRec) (maxSize overlap lb : Nat) (f : List Char → Vec)
    (v : VersionRec) (hcur : currentVersion st slug = some v)
    (hhash : v.contentHash = canonicalHash (rawText sections)) :
    (indexDocument st slug sections maxSize overlap lb f).2 = ClassifyStatus.UNCHANGED ∧
    (indexDocument st slug sections maxSize overlap lb f).1.chunks = st.chunks ∧
    (indexDocument st slug sections maxSize overlap lb f).1.embeddings = st.embeddings ∧
    (indexDocument st slug sections maxSize overlap lb f).1.versions.map
        (fun w => (w.slug, w.contentHash, w.versionNumber, w.firstSeenAt, w.validFrom, w.validTo))
      = st.versions.map
        (fun w => (w.slug, w.contentHash, w.versionNumber, w.firstSeenAt, w.validFrom, w.validTo)) ∧
    (∃ w, currentVersion (indexDocument st slug sections maxSize overlap lb f).1 slug = some w ∧
      w.lastSeenAt = st.now ∧ w.slug = v.slug ∧ w.contentHash = v.contentHash ∧
      w.versionNumber = v.versionNumber) := by
  have hred : indexDocument st slug sections maxSize overlap lb f
      = ({ st with
           versions := st.versions.map (fun w =>
             if decide (w.slug = slug) && decide (w.validTo = none) then
               { w with lastSeenAt := st.now }
             else w) }, ClassifyStatus.UNCHANGED) := by
    unfold indexDocument
    rw [hcur]
    simp only [if_pos hhash]
  rw [hred]
  refine ⟨rfl, rfl, rfl, ?_, ?_⟩
  · show (st.versions.map _).map _ = _
    rw [List.map_map]
    apply List.map_congr_left
    intro w _
    by_cases hw : (decide (w.slug = slug) && decide (w.validTo = none)) = true <;>
      [rw [Function.comp_apply, if_pos hw]; rw [Function.comp_apply, if_neg hw]]
  · have hv := List.find?_some hcur
    have hpred : ∀ w : VersionRec,
        ((fun w => decide (w.slug = slug) && decide (w.validTo = none))
          (if (decide (w.slug = slug) && decide (w.validTo = none)) = true then
            { w with lastSeenAt := st.now }
          else w))
        = ((fun w => decide (w.slug = slug) && decide (w.validTo = none)) w) := by
      intro w
      by_cases hw : (decide (w.slug = slug) && decide (w.validTo = none)) = true
      · rw [if_pos hw]
      · rw [if_neg hw]
    have h5 : (st.versions.map (fun w =>
        if (decide (w.slug = slug) && decide (w.validTo = none)) = true then
          { w with lastSeenAt := st.now }
        else w)).find? (fun w => decide (w.slug = slug) && decide (w.validTo = none))
        = some (if (decide (v.slug = slug) && decide (v.validTo = none)) = true then
            { v with lastSeenAt := st.now }
          else v) := by
      rw [find?_map_of_pred_eq _ _ hpred]
      rw [show st.versions.find?
          (fun w => decide (w.slug = slug) && decide (w.validTo = none)) = some v from hcur]
      rfl
    rw [if_pos hv] at h5
    exact ⟨{ v with lastSeenAt := st.now }, h5, rfl, rfl, rfl, rfl⟩

/-- A concrete two-character document for the C5 witness. -/
def c5secs : List SectionRec := [SectionRec.mk 0 none ['h', 'i']]

/-- A concrete engine state whose stored current version for slug 5
already carries the canonical hash of c5secs. -/
def c5state : EngineState :=
  EngineState.mk [VersionRec.mk 5 (canonicalHash (rawText c5secs)) 1 0 0 0 none] [] [] 3

/-- C5 witness: re-indexing the unchanged concrete document is a no-op
apart from last_seen_at. -/
theorem C5_unchanged_is_idempotent_witness :
    (indexDocument c5state 5 c5secs 1000 100 100 (fun t => ([] : Vec))).2
      = ClassifyStatus.UNCHANGED ∧
    (indexDocument c5state 5 c5secs 1000 100 100 (fun t => ([] : Vec))).1.chunks
      = c5state.chunks ∧
    (indexDocument c5state 5 c5secs 1000 100 100 (fun t => ([] : Vec))).1.embeddings
      = c5state.embeddings ∧
    (indexDocument c5state 5 c5secs 1000 100 100 (fun t => ([] : Vec))).1.versions.map
        (fun w => (w.slug, w.contentHash, w.versionNumber, w.firstSeenAt, w.validFrom, w.validTo))
      = c5state.versions.map
        (fun w => (w.slug, w.contentHash, w.versionNumber, w.firstSeenAt, w.validFrom, w.validTo)) ∧
    (∃ w, currentVersion
        (indexDocument c5state 5 c5secs 1000 100 100 (fun t => ([] : Vec))).1 5 = some w ∧
      w.lastSeenAt = c5state.now ∧
      w.slug = (VersionRec.mk 5 (canonicalHash (rawText c5secs)) 1 0 0 0 none).slug ∧
      w.contentHash = (VersionRec.mk 5 (canonicalHash (rawText c5secs)) 1 0 0 0 none).contentHash ∧
      w.versionNumber
        = (VersionRec.mk 5 (canonicalHash (rawText c5secs)) 1 0 0 0 none).versionNumber) :=
  C5_unchanged_is_idempotent c5state 5 c5secs 1000 100 100 (fun t => ([] : Vec))
    (VersionRec.mk 5 (canonicalHash (rawText c5secs)) 1 0 0 0 none) rfl rfl

end LegalJM

